import Mathlib

/-!
Verification of the incremental relevance pipeline implemented in `src/main.py`
(arXiv paper triage: harvest, time-window filter, identity extraction, dedup
cache, external YES/NO classifier, batched report and notification).

Embedding conventions:
* Python strings are Lean `String`s; the `str.strip`, `str.split`,
  `str.upper`, `str.rstrip` operations are modelled character-exactly over
  ASCII (the Python originals additionally handle non-ASCII Unicode
  whitespace and case, which no input in the source or spec exercises).
* Timestamps (`datetime`) are integers counting microseconds since the epoch,
  `timedelta(days = n)` is `n * 86400000000`, and `.date()` is floor division
  by one day; comparisons on `datetime` are integer comparisons.
* The external classifier subprocess is a parameter
  `runner : String → SubprocessResult`; `SubprocessResult.failure` covers both
  a non-zero exit (`check=True` raising `CalledProcessError`) and a spawn
  error, which `llm_filter` catches.
* The cache file is a value of type `CacheFile`: present or absent, its lines,
  and an optional point (line count) after which reading raises.
* Sending mail is modelled by returning the message handed to
  `server.sendmail`; `none` means no message was submitted.
-/

namespace PaperFlow

/-! ### ASCII model of the Python string operations used by the source -/

/-- Whitespace characters recognised by Python `str.strip` / `str.split`
(ASCII subset). -/
def isPyWs (c : Char) : Bool :=
  c = ' ' || c = '\t' || c = '\n' || c = '\r' || c = '\x0b' || c = '\x0c'

/-- List-level `str.strip`: drop leading and trailing whitespace. -/
def pyStripL (l : List Char) : List Char :=
  (((l.dropWhile isPyWs).reverse.dropWhile isPyWs)).reverse

/-- Python `str.strip()`. -/
def pyStrip (s : String) : String :=
  ⟨pyStripL s.toList⟩

/-- Worker for `str.split()`: scan the characters keeping the current token
(reversed) in the accumulator; a whitespace character closes the current
token, a non-whitespace character extends it, and tokens are emitted in
order — so whitespace runs separate tokens and no empty token is produced. -/
def pySplitGo : Option (List Char) → List Char → List (List Char)
  | none, [] => []
  | some t, [] => [t.reverse]
  | none, c :: cs =>
    if isPyWs c then pySplitGo none cs else pySplitGo (some [c]) cs
  | some t, c :: cs =>
    if isPyWs c then t.reverse :: pySplitGo none cs
    else pySplitGo (some (c :: t)) cs

/-- List-level `str.split()` (no argument): split on whitespace runs,
producing no empty tokens. -/
def pySplitL (l : List Char) : List (List Char) :=
  pySplitGo none l

/-- Python `str.split()`. -/
def pySplit (s : String) : List String :=
  (pySplitL s.toList).map fun l => (⟨l⟩ : String)

/-- Python `str.upper()` (ASCII). -/
def pyUpper (s : String) : String :=
  ⟨s.toList.map Char.toUpper⟩

/-- Characters of the literal `'.,!?:;'` passed to `rstrip` in
`parse_llm_response`. -/
def isTrailingPunct (c : Char) : Bool :=
  c = '.' || c = ',' || c = '!' || c = '?' || c = ':' || c = ';'

/-- Python `str.rstrip('.,!?:;')`. -/
def pyRstripPunct (s : String) : String :=
  ⟨(s.toList.reverse.dropWhile isTrailingPunct).reverse⟩

/-! ### Identity Extractor — `extract_paper_id`, src/main.py lines 32-45

The two regular expressions of the source, `/(\d{4}\.\d{4,5})` and
`(\d{4}\.\d{4,5})`, are embedded directly: `matchIdAt` matches
`\d{4}\.\d{4,5}` at one position (the counted group is greedy, and nothing
follows it in the pattern, so a fifth digit is taken whenever available), and
the two search functions scan positions left to right as `re.search` does.
`\d` is modelled as an ASCII digit. -/

/-- Match exactly `n` digits at the front of `cs`, returning them and the
rest. -/
def takeExactDigits : Nat → List Char → Option (List Char × List Char)
  | 0, cs => some ([], cs)
  | _ + 1, [] => none
  | n + 1, c :: cs =>
    if c.isDigit then
      (takeExactDigits n cs).map fun p => (c :: p.1, p.2)
    else none

/-- Match the pattern `\d{4}\.\d{4,5}` at the start of `cs`, returning the
matched characters (the content of the capture group). -/
def matchIdAt (cs : List Char) : Option (List Char) :=
  match takeExactDigits 4 cs with
  | none => none
  | some (d1, rest) =>
    match rest with
    | '.' :: rest2 =>
      match takeExactDigits 4 rest2 with
      | none => none
      | some (d2, rest3) =>
        match rest3 with
        | c :: _ =>
          if c.isDigit then some (d1 ++ '.' :: d2 ++ [c])
          else some (d1 ++ '.' :: d2)
        | [] => some (d1 ++ '.' :: d2)
    | _ => none

/-- Leftmost match of `re.search(r'(\d{4}\.\d{4,5})', ·)`. -/
def searchNoSlash : List Char → Option (List Char)
  | [] => none
  | c :: cs =>
    match matchIdAt (c :: cs) with
    | some m => some m
    | none => searchNoSlash cs

/-- Leftmost match of `re.search(r'/(\d{4}\.\d{4,5})', ·)`, returning the
capture group (the id without the slash). -/
def searchSlash : List Char → Option (List Char)
  | [] => none
  | c :: cs =>
    if c = '/' then
      match matchIdAt cs with
      | some m => some m
      | none => searchSlash cs
    else searchSlash cs

/-- The pure text-level core of `extract_paper_id`: first regex with the
leading `/`, then the fallback without it, else `None`. -/
def extract_id_str (s : String) : Option String :=
  match searchSlash s.toList with
  | some m => some ⟨m⟩
  | none =>
    match searchNoSlash s.toList with
    | some m => some ⟨m⟩
    | none => none

/-- A Python value as far as the duck-typed attribute access of
`extract_paper_id` can observe it: text, or something that is not text
(integers and `None` stand in for all non-text values, on which `re.search`
raises `TypeError`). -/
inductive PyVal where
  | pstr (s : String)
  | pint (n : Int)
  | pnone
deriving DecidableEq

/-- A raw feed entry as seen by `extract_paper_id`: its `id` and `link`
attributes, each possibly absent (`getattr` default applies). -/
structure RawEntry where
  id : Option PyVal
  link : Option PyVal
deriving DecidableEq

/-- The `id_str = getattr(entry, 'id', getattr(entry, 'link', ''))` chain of
line 36. -/
def getattr_id_link (e : RawEntry) : PyVal :=
  match e.id with
  | some v => v
  | none =>
    match e.link with
    | some v => v
    | none => PyVal.pstr ""

/-- Function `extract_paper_id` (src/main.py lines 32-45) including its
duck-typed attribute access: `re.search` applied to a non-text value raises
`TypeError`, modelled by the `Except.error` result. -/
def extract_paper_id (e : RawEntry) : Except String (Option String) :=
  match getattr_id_link e with
  | PyVal.pstr s => Except.ok (extract_id_str s)
  | _ => Except.error "TypeError"

/-! ### Dedup Cache — `load_relevant_paper_ids` / `save_paper_id`,
src/main.py lines 48-82 -/

/-- The backing cache file as the loader can observe it: whether it exists,
its lines (without terminators), and an optional failure point — reading
raises after `failAfter` lines have been delivered (`none` = the read
succeeds to the end). -/
structure CacheFile where
  present : Bool
  lines : List String
  failAfter : Option Nat

/-- One iteration of the loading loop (src/main.py lines 58-61): strip the
line and add it unless empty. -/
def loadLine (acc : Finset String) (line : String) : Finset String :=
  let paper_id := pyStrip line
  if paper_id = "" then acc else insert paper_id acc

/-- Function `load_relevant_paper_ids` (src/main.py lines 48-69): empty set
when the file is absent; otherwise fold the lines that were read before any
failure — on failure the set built so far is returned (the `except` clause
only logs). -/
def load_relevant_paper_ids (f : CacheFile) : Finset String :=
  if ¬ f.present then ∅
  else
    let readable :=
      match f.failAfter with
      | some k => f.lines.take k
      | none => f.lines
    readable.foldl loadLine ∅

/-! ### Relevance Classifier Adapter — `parse_llm_response` / `llm_filter`,
src/main.py lines 108-191 -/

/-- The prompt built by `llm_filter` (src/main.py lines 132-152). -/
def llm_prompt (title abstract : String) : String :=
  "You are filtering papers for relevance to COMPUTER SCIENCE topics about data management and processing.\n\nThe paper must be DIRECTLY and SUBSTANTIALLY related to one or more of these specific topics:\n- Unstructured data analysis (methods for analyzing text, documents, or unstructured formats)\n- Querying unstructured data (searching, querying, or retrieving information from unstructured sources)\n- Semi-structured data analysis (working with JSON, XML, or other semi-structured formats)\n- Text-to-table conversion (extracting structured tables from unstructured text)\n- Text-to-relational schema (converting text into database schemas or relational models)\n\nEXCLUDE papers that are:\n- About physics, astronomy, biology, chemistry, or other natural sciences (even if they mention \"data analysis\")\n- About general machine learning or AI without focus on data management/processing\n- About databases or data systems without focus on unstructured/semi-structured data\n- Only tangentially related (e.g., using data analysis as a tool but not about data management itself)\n\nTitle: "
    ++ title ++ "\nAbstract: " ++ abstract ++
    "\n\nIs this paper DIRECTLY about computer science topics related to unstructured/semi-structured data management, querying, or conversion? \n\nRespond with ONLY one word: YES or NO. Do not explain."

/-- Function `parse_llm_response` (src/main.py lines 108-125): first
whitespace-delimited token, stripped, uppercased, trailing `.,!?:;`
removed; `YES` is relevant, everything else (including `NO` and empty
output) is not. The `NO` branch and the logging else branch of the source
return the same value and are folded together. -/
def parse_llm_response (output : String) : Bool × String :=
  if output = "" then (false, "(empty)")
  else
    match pySplit (pyStrip output) with
    | [] => (false, "(empty)")
    | w :: _ =>
      let first_word := pyRstripPunct (pyUpper (pyStrip w))
      if first_word = "YES" then (true, first_word)
      else (false, first_word)

/-- Outcome of `subprocess.run(["ollama", "run", MODEL], ..., check=True)`:
either exit status 0 with captured standard output, or a failure — a
non-zero exit (`CalledProcessError`) or a spawn error, both caught by the
same `except` clause of `llm_filter`. -/
inductive SubprocessResult where
  | ok (stdout : String)
  | failure

/-- Function `llm_filter` (src/main.py lines 128-191), with the external
process as the parameter `runner`: on success the stripped standard output
goes to `parse_llm_response`; any invocation failure is caught and mapped to
not-relevant. -/
def llm_filter (runner : String → SubprocessResult) (title abstract : String) : Bool :=
  match runner (llm_prompt title abstract) with
  | SubprocessResult.ok stdout => (parse_llm_response (pyStrip stdout)).1
  | SubprocessResult.failure => false

/-! ### Notifier — `send_batch_email_notification`, src/main.py lines 206-267 -/

/-- The environment-provided transport configuration; the empty string models
an unset variable (the `os.getenv(..., "")` defaults). -/
structure EmailConfig where
  user_email : String
  smtp_username : String
  smtp_password : String

/-- The message handed to `server.sendmail`. -/
structure Email where
  subject : String
  recipient : String
  body : String

/-- The configuration check of src/main.py line 211:
`not USER_EMAIL or not SMTP_USERNAME or not SMTP_PASSWORD`. -/
def email_config_incomplete (cfg : EmailConfig) : Bool :=
  cfg.user_email = "" || cfg.smtp_username = "" || cfg.smtp_password = ""

/-- A feed entry after harvest decoding. `published` is the publication
timestamp in microseconds since the epoch (the `datetime` that
`strptime(entry.published, "%Y-%m-%dT%H:%M:%SZ")` yields, UTC); `id_str` is
the text of the `id` attribute (or, failing that, `link`, or `""`) — the
duck-typed access itself, including its failure on non-text values, is
modelled by `extract_paper_id` on `RawEntry` above. -/
structure Entry where
  published : Int
  title : String
  summary : String
  authors : List String
  link : String
  id_str : String

/-- Microseconds in one day. -/
def microsPerDay : Int := 86400000000

/-- The configured `DAYS_BACK = 7`. -/
def DAYS_BACK : Int := 7

/-- Calendar date of a timestamp (`datetime.date()`): floor division by one
day. -/
def dateOf (t : Int) : Int := Int.fdiv t microsPerDay

/-- Render a date back to text (`strftime("%Y-%m-%d")` is abstracted to the
day number; no claim depends on the rendering). -/
def showDate (t : Int) : String := toString (dateOf t)

/-- Function `format_entry` (src/main.py lines 194-203). The raw `published`
text is rendered from the embedded timestamp. -/
def format_entry (e : Entry) : String :=
  "Title: " ++ pyStrip e.title ++ "\n" ++
  "Authors: " ++ String.intercalate ", " e.authors ++ "\n" ++
  "Date: " ++ toString e.published ++ "\n" ++
  "Link: " ++ e.link ++ "\n" ++
  "Summary: " ++ (pyStrip e.summary).take 600 ++ "...\n" ++
  (⟨List.replicate 80 '-'⟩ : String) ++ "\n"

/-- The notification body (src/main.py lines 232-244). -/
def email_body (papers : List (Entry × Option String)) : String :=
  "Found " ++ toString papers.length ++ " new relevant paper" ++
    (if papers.length > 1 then "s" else "") ++ " on arXiv!\n\n" ++
  String.join (papers.map fun p =>
    "Title: " ++ pyStrip p.1.title ++ "\n" ++
    "Date: " ++ showDate p.1.published ++ "\n" ++
    "Link: " ++ p.1.link ++ "\n" ++
    (⟨List.replicate 80 '-'⟩ : String) ++ "\n\n")

/-- Function `send_batch_email_notification` (src/main.py lines 206-267).
Returns the message submitted to the transport, or `none` when nothing was
submitted (empty list, or incomplete configuration — both checked before any
transport activity). -/
def send_batch_email_notification (cfg : EmailConfig)
    (papers : List (Entry × Option String)) : Option Email :=
  match papers with
  | [] => none
  | p :: rest =>
    if email_config_incomplete cfg then none
    else
      some
        { subject :=
            if rest.isEmpty then
              "New Relevant arXiv Paper Found: " ++ (pyStrip p.1.title).take 60
            else
              "New Relevant arXiv Papers Found: " ++
                toString (p :: rest).length ++ " papers"
          recipient := cfg.user_email
          body := email_body (p :: rest) }

/-! ### Pipeline Orchestrator — `main`, src/main.py lines 270-401 -/

/-- The run-scoped mutable state of `main`: the in-memory cache set, the
lines appended to the cache file this run, the two accumulation lists, and
the counters. -/
structure RunState where
  cached_paper_ids : Finset String
  cache_file_appends : List String
  relevant_papers : List (Int × String)
  new_relevant_papers : List (Entry × Option String)
  total_entries_processed : Nat
  total_entries_in_range : Nat
  total_llm_calls : Nat
  total_cached_hits : Nat

/-- The time-window test of src/main.py line 320:
`week_ago <= published_date <= now` with
`week_ago = now - timedelta(days=DAYS_BACK)`. -/
def inWindow (now published : Int) : Bool :=
  decide (now - DAYS_BACK * microsPerDay ≤ published) && decide (published ≤ now)

/-- The `paper_id` local of src/main.py lines 333-337: the extraction result,
with a falsy value (`None` or `""`) normalised to `None`. -/
def extractedId (e : Entry) : Option String :=
  match extract_id_str e.id_str with
  | some s => if s = "" then none else some s
  | none => none

/-- The cache test of src/main.py line 340:
`paper_id and paper_id in cached_paper_ids`. -/
def cacheHitB (st : RunState) (pid? : Option String) : Bool :=
  match pid? with
  | some pid => decide (pid ∈ st.cached_paper_ids)
  | none => false

/-- Append to the all-relevant accumulator (src/main.py line 372). -/
def markRelevant (st : RunState) (e : Entry) : RunState :=
  { st with relevant_papers :=
      st.relevant_papers ++ [(dateOf e.published, format_entry e)] }

/-- The classifier arm of the per-item loop (src/main.py lines 345-368 plus
the shared lines 370-372): count the call, classify, and on a relevant
verdict update cache and file (when an id is present), queue the item for
notification (when new), and append to the all-relevant accumulator. -/
def classifyBranch (runner : String → SubprocessResult) (st : RunState)
    (e : Entry) (pid? : Option String) : RunState :=
  let st := { st with total_llm_calls := st.total_llm_calls + 1 }
  let is_relevant := llm_filter runner e.title e.summary
  let st :=
    if is_relevant then
      let is_new_paper : Bool :=
        match pid? with
        | none => true
        | some pid => decide (pid ∉ st.cached_paper_ids)
      let st :=
        match pid? with
        | some pid =>
          { st with cached_paper_ids := insert pid st.cached_paper_ids
                    cache_file_appends := st.cache_file_appends ++ [pid] }
        | none => st
      if is_new_paper then
        { st with new_relevant_papers := st.new_relevant_papers ++ [(e, pid?)] }
      else st
    else st
  if is_relevant then markRelevant st e else st

/-- The per-item body of the loop (src/main.py lines 308-377): skip when out
of window; otherwise count the entry and either take the cache short-circuit
(relevant, no classifier) or go through the classifier. -/
def processEntry (runner : String → SubprocessResult) (now : Int)
    (st : RunState) (e : Entry) : RunState :=
  if inWindow now e.published then
    let st := { st with total_entries_in_range := st.total_entries_in_range + 1 }
    let pid? := extractedId e
    if cacheHitB st pid? then
      markRelevant { st with total_cached_hits := st.total_cached_hits + 1 } e
    else
      classifyBranch runner st e pid?
  else st

/-- One topic of the outer loop (src/main.py lines 296-385): count the
harvested entries, then process each in feed order. The inter-topic sleep
has no observable state. -/
def process_topic (runner : String → SubprocessResult) (now : Int)
    (st : RunState) (entries : List Entry) : RunState :=
  let st := { st with total_entries_processed :=
      st.total_entries_processed + entries.length }
  entries.foldl (processEntry runner now) st

/-- The initial run state of `main` (src/main.py lines 281-294): cache loaded
from the backing file, everything else empty or zero. -/
def initState (cacheFile : CacheFile) : RunState :=
  { cached_paper_ids := load_relevant_paper_ids cacheFile
    cache_file_appends := []
    relevant_papers := []
    new_relevant_papers := []
    total_entries_processed := 0
    total_entries_in_range := 0
    total_llm_calls := 0
    total_cached_hits := 0 }

/-- Function `main` (src/main.py lines 270-401) as a function of its
environment: the classifier process, the wall-clock time captured once at
line 283, the cache file, the per-topic harvest results (in configured topic
order), and the mail configuration. Returns the final run state and the
notification submitted to the transport, if any (lines 387-393: sent only
when the new-relevant list is non-empty). -/
def mainRun (runner : String → SubprocessResult) (now : Int)
    (cacheFile : CacheFile) (topics : List (List Entry)) (cfg : EmailConfig) :
    RunState × Option Email :=
  let st := topics.foldl (process_topic runner now) (initState cacheFile)
  let email :=
    if st.new_relevant_papers.isEmpty then none
    else send_batch_email_notification cfg st.new_relevant_papers
  (st, email)

/-! ### Reporter — modelled from the spec

`src/main.py` only populates the `relevant_papers` accumulator (line 372) and
reports counters (lines 395-401); the date-grouped console report of spec
§4.6 lives in one of the repository's duplicated script variants that is not
under `src/`. The reporter is therefore modelled from the spec's words. -/

/-- One line of the console report: a date-group header, or one formatted
entry carrying the date it was accumulated under. -/
inductive ReportLine where
  | header (d : Int)
  | item (d : Int) (s : String)
deriving DecidableEq

/-- Date-descending comparison on accumulator pairs: `a` may precede `b`. -/
def dateGE (a b : Int × String) : Prop := b.1 ≤ a.1

instance : DecidableRel dateGE := fun a b => inferInstanceAs (Decidable (b.1 ≤ a.1))

instance : IsTotal (Int × String) dateGE :=
  ⟨fun a b => (le_total b.1 a.1).elim Or.inl Or.inr⟩

instance : IsTrans (Int × String) dateGE :=
  ⟨fun _ _ _ hab hbc => le_trans hbc hab⟩

/-- Modelled from the spec: the explicit descending date-sort of §4.6 applied
to the all-relevant accumulator before grouping; a stable sort, as Python's
`sorted(..., key=..., reverse=True)` is stable. -/
def sortByDateDesc (l : List (Int × String)) : List (Int × String) :=
  l.insertionSort dateGE

/-- Modelled from the spec: the grouping emitter of §4.6 — walk the sorted
accumulator remembering the date of the last emitted group and write a header
whenever the date changes, i.e. once per distinct date, before that date's
first item. -/
def emitGrouped : Option Int → List (Int × String) → List ReportLine
  | _, [] => []
  | cur, (d, s) :: rest =>
    if cur = some d then ReportLine.item d s :: emitGrouped cur rest
    else ReportLine.header d :: ReportLine.item d s :: emitGrouped (some d) rest

/-- Modelled from the spec: the console Reporter of §4.6, absent from `src/`
(only the accumulator it consumes is in `src/main.py`): sort the all-relevant
accumulator by date descending, then emit a date-group header once per
distinct date before the first item with that date. -/
def report_lines (l : List (Int × String)) : List ReportLine :=
  emitGrouped none (sortByDateDesc l)

/-- First occurrences of each distinct value, in list order. -/
def distinctDates : List Int → List Int
  | [] => []
  | d :: ds => d :: distinctDates (ds.filter fun x => decide (x ≠ d))
termination_by l => l.length
decreasing_by
  simp only [List.length_cons]
  exact Nat.lt_succ_of_le (List.length_filter_le _ _)

/-- The distinct dates of the report, in emitted (descending) order. -/
def reportDates (l : List (Int × String)) : List Int :=
  distinctDates ((sortByDateDesc l).map Prod.fst)

/-! ### Lemmas about the identity extractor -/

theorem matchIdAt_ne_nil {cs m : List Char} (h : matchIdAt cs = some m) : m ≠ [] := by
  unfold matchIdAt at h
  iterate 6 (all_goals try split at h)
  all_goals
    first
      | (injection h with h; rw [← h]; simp)
      | exact Option.noConfusion h

theorem matchIdAt_nil : matchIdAt [] = none := rfl

theorem searchNoSlash_ne_nil :
    ∀ {l m : List Char}, searchNoSlash l = some m → m ≠ [] := by
  intro l
  induction l with
  | nil => intro m h; exact absurd h (by simp [searchNoSlash])
  | cons c cs ih =>
    intro m h
    unfold searchNoSlash at h
    cases hm : matchIdAt (c :: cs) with
    | some m' => rw [hm] at h; injection h with h; exact h ▸ matchIdAt_ne_nil hm
    | none => rw [hm] at h; exact ih h

theorem searchSlash_ne_nil :
    ∀ {l m : List Char}, searchSlash l = some m → m ≠ [] := by
  intro l
  induction l with
  | nil => intro m h; exact absurd h (by simp [searchSlash])
  | cons c cs ih =>
    intro m h
    unfold searchSlash at h
    split at h
    · cases hm : matchIdAt cs with
      | some m' => rw [hm] at h; injection h with h; exact h ▸ matchIdAt_ne_nil hm
      | none => rw [hm] at h; exact ih h
    · exact ih h

theorem searchNoSlash_of_matchIdAt {l m : List Char} (h : matchIdAt l = some m) :
    searchNoSlash l ≠ none := by
  cases l with
  | nil => rw [matchIdAt_nil] at h; exact absurd h (by simp)
  | cons c cs => unfold searchNoSlash; rw [h]; simp

theorem searchSlash_imp_noSlash :
    ∀ {l m : List Char}, searchSlash l = some m → searchNoSlash l ≠ none := by
  intro l
  induction l with
  | nil => intro m h; exact absurd h (by simp [searchSlash])
  | cons c cs ih =>
    intro m h
    unfold searchSlash at h
    have step : searchNoSlash cs ≠ none → searchNoSlash (c :: cs) ≠ none := by
      intro hcs
      unfold searchNoSlash
      cases hm : matchIdAt (c :: cs) with
      | some m' => simp
      | none => exact hcs
    split at h
    · cases hm : matchIdAt cs with
      | some m' => exact step (searchNoSlash_of_matchIdAt hm)
      | none => rw [hm] at h; exact step (ih h)
    · exact step (ih h)

theorem extract_id_str_ne_empty (s : String) : extract_id_str s ≠ some "" := by
  unfold extract_id_str
  cases h1 : searchSlash s.toList with
  | some m =>
    simp only
    intro h
    injection h with h
    exact searchSlash_ne_nil h1 (congrArg String.data h)
  | none =>
    simp only
    cases h2 : searchNoSlash s.toList with
    | some m =>
      simp only
      intro h
      injection h with h
      exact searchNoSlash_ne_nil h2 (congrArg String.data h)
    | none => simp

/-- C5: identity extraction is pure and deterministic (it is a function of
its input alone); it first matches the 4-digit + dot + 4-to-5-digit token
immediately following a path separator (`searchSlash`, the first `re.search`
of src/main.py line 38), retries anywhere in the input without the separator
requirement if that fails (`searchNoSlash`, line 42), and returns the
absence value exactly when the relaxed pattern matches nowhere; an input
containing `.../1234.5678v2` yields `"1234.5678"`. -/
theorem extract_id_algorithm :
    extract_id_str "http://arxiv.org/abs/1234.5678v2" = some "1234.5678" ∧
    (∀ s m, searchSlash s.toList = some m → extract_id_str s = some ⟨m⟩) ∧
    (∀ s, searchSlash s.toList = none →
      extract_id_str s = (searchNoSlash s.toList).map fun m => (⟨m⟩ : String)) ∧
    (∀ s, extract_id_str s = none ↔ searchNoSlash s.toList = none) := by
  refine ⟨by decide, ?_, ?_, ?_⟩
  · intro s m h
    unfold extract_id_str
    rw [h]
  · intro s h
    unfold extract_id_str
    rw [h]
    cases searchNoSlash s.toList <;> rfl
  · intro s
    unfold extract_id_str
    cases h1 : searchSlash s.toList with
    | some m =>
      simp only
      constructor
      · intro h; exact Option.noConfusion h
      · intro h; exact absurd h (searchSlash_imp_noSlash h1)
    | none =>
      simp only
      cases h2 : searchNoSlash s.toList <;> simp

/-- Witness for `extract_id_algorithm` at concrete inputs: the
separator-preferring branch on `"abs/1234.5678"` and the fallback branch on
`"9999.123456"` (where the greedy 4-to-5-digit group takes five digits). -/
theorem extract_id_algorithm_witness :
    extract_id_str "abs/1234.5678" = some "1234.5678" ∧
    extract_id_str "9999.123456" = some "9999.12345" := by
  constructor
  · exact extract_id_algorithm.2.1 "abs/1234.5678"
      ['1', '2', '3', '4', '.', '5', '6', '7', '8'] (by decide)
  · exact (extract_id_algorithm.2.2.1 "9999.123456" (by decide)).trans (by decide)

/-- C4 counterexample: an entry whose `id` attribute is the integer `3` makes
`extract_paper_id` raise a `TypeError` inside `re.search` (modelled by the
`Except.error` result) instead of yielding the absence value — the function
is not total over non-text attribute values. -/
theorem extract_paper_id_raises_on_nontext :
    extract_paper_id ⟨some (PyVal.pint 3), none⟩ = Except.error "TypeError" := rfl

/-- An attribute slot that is absent or holds text — the domain on which the
amended totality claim holds. -/
def textOrAbsent : Option PyVal → Bool
  | none => true
  | some (PyVal.pstr _) => true
  | some _ => false

/-- C4 amended: extraction never raises for any entry whose `id` and `link`
attributes are each absent or text (an entry with neither attribute falls
back to the empty string and yields the absence value), and when no
recognizable pattern exists the result is the explicit absence value — the
result is never the empty string. A non-text attribute value, however,
raises `TypeError` (see the counterexample). -/
theorem extract_paper_id_total_on_text (e : RawEntry)
    (hid : textOrAbsent e.id = true) (hlink : textOrAbsent e.link = true) :
    (∃ r, extract_paper_id e = Except.ok r) ∧
    extract_paper_id e ≠ Except.ok (some "") := by
  have hs : ∃ s, getattr_id_link e = PyVal.pstr s := by
    unfold getattr_id_link
    cases hi : e.id with
    | some v =>
      rw [hi] at hid
      cases v with
      | pstr s => exact ⟨s, rfl⟩
      | pint n => simp [textOrAbsent] at hid
      | pnone => simp [textOrAbsent] at hid
    | none =>
      cases hl : e.link with
      | some v =>
        rw [hl] at hlink
        cases v with
        | pstr s => exact ⟨s, rfl⟩
        | pint n => simp [textOrAbsent] at hlink
        | pnone => simp [textOrAbsent] at hlink
      | none => exact ⟨"", rfl⟩
  obtain ⟨s, hs⟩ := hs
  unfold extract_paper_id
  rw [hs]
  refine ⟨⟨extract_id_str s, rfl⟩, ?_⟩
  intro h
  injection h with h
  exact extract_id_str_ne_empty s h

/-- Witness for `extract_paper_id_total_on_text`: an entry with neither an
`id` nor a `link` attribute does not raise and does not produce the empty
string. -/
theorem extract_paper_id_total_on_text_witness :
    (∃ r, extract_paper_id ⟨none, none⟩ = Except.ok r) ∧
    extract_paper_id ⟨none, none⟩ ≠ Except.ok (some "") :=
  extract_paper_id_total_on_text ⟨none, none⟩ rfl rfl

/-! ### Lemmas and claim theorems for the cache loader -/

/-- C7: `load_relevant_paper_ids` returns the empty set when the backing file
is absent; on a read failure after `k` lines it returns exactly what a
successful load of those `k` lines would return (the set parsed so far,
never propagating the failure — the function is total); a whitespace-only
line contributes nothing; and a file with the same id on two lines loads to
a set of size 1. -/
theorem load_cache_robust :
    (∀ lines fa, load_relevant_paper_ids ⟨false, lines, fa⟩ = ∅) ∧
    (∀ lines k, load_relevant_paper_ids ⟨true, lines, some k⟩ =
      load_relevant_paper_ids ⟨true, lines.take k, none⟩) ∧
    (∀ pre w post, pyStrip w = "" →
      load_relevant_paper_ids ⟨true, pre ++ w :: post, none⟩ =
        load_relevant_paper_ids ⟨true, pre ++ post, none⟩) ∧
    (load_relevant_paper_ids ⟨true, ["1234.5678", "1234.5678"], none⟩).card = 1 := by
  refine ⟨fun lines fa => by simp [load_relevant_paper_ids], fun lines k => rfl, ?_, by decide⟩
  intro pre w post hw
  simp only [load_relevant_paper_ids, List.foldl_append, List.foldl_cons]
  congr 1
  simp [loadLine, hw]

/-- Witness for `load_cache_robust`: a whitespace-only line between two real
lines is skipped. -/
theorem load_cache_robust_witness :
    load_relevant_paper_ids ⟨true, ["1111.2222", " \t ", "3333.4444"], none⟩ =
      load_relevant_paper_ids ⟨true, ["1111.2222", "3333.4444"], none⟩ :=
  load_cache_robust.2.2.1 ["1111.2222"] " \t " ["3333.4444"] (by decide)

/-! ### Lemmas about whitespace splitting — `str.split()` ignores leading
and trailing whitespace, so stripping first changes nothing -/

theorem pySplitGo_all_ws :
    ∀ (t : List Char), (∀ c ∈ t, isPyWs c = true) →
      pySplitGo none t = [] ∧ ∀ tok, pySplitGo (some tok) t = [tok.reverse] := by
  intro t
  induction t with
  | nil => exact fun _ => ⟨rfl, fun _ => rfl⟩
  | cons c cs ih =>
    intro h
    have hc : isPyWs c = true := h c (by simp)
    have ihcs := ih fun d hd => h d (by simp [hd])
    constructor
    · simp only [pySplitGo, hc, if_true]
      exact ihcs.1
    · intro tok
      simp only [pySplitGo, hc, if_true, ihcs.1]

theorem pySplitL_dropWhile (l : List Char) :
    pySplitL (l.dropWhile isPyWs) = pySplitL l := by
  induction l with
  | nil => rfl
  | cons c cs ih =>
    by_cases h : isPyWs c = true
    · rw [List.dropWhile_cons_of_pos h, ih]
      show _ = pySplitGo none (c :: cs)
      simp only [pySplitGo, h, if_true]
      rfl
    · rw [List.dropWhile_cons_of_neg h]

theorem pySplitGo_append_ws {t : List Char} (ht : ∀ c ∈ t, isPyWs c = true) :
    ∀ (l : List Char) (cur : Option (List Char)),
      pySplitGo cur (l ++ t) = pySplitGo cur l := by
  intro l
  induction l with
  | nil =>
    intro cur
    cases cur with
    | none => exact (pySplitGo_all_ws t ht).1
    | some tok => exact (pySplitGo_all_ws t ht).2 tok
  | cons c cs ih =>
    intro cur
    by_cases h : isPyWs c = true <;>
      cases cur <;>
        (rw [List.cons_append]
         simp only [pySplitGo]
         first
           | rw [if_pos h, if_pos h, ih]
           | rw [if_neg h, if_neg h, ih])

theorem pySplitL_pyStripL (l : List Char) :
    pySplitL (pyStripL l) = pySplitL l := by
  unfold pyStripL
  rw [← pySplitL_dropWhile l]
  generalize (l.dropWhile isPyWs) = m
  have hdecomp :
      m = (m.reverse.dropWhile isPyWs).reverse ++ (m.reverse.takeWhile isPyWs).reverse := by
    conv_lhs => rw [← List.reverse_reverse m,
      ← List.takeWhile_append_dropWhile isPyWs m.reverse]
    rw [List.reverse_append]
  have hws : ∀ c ∈ (m.reverse.takeWhile isPyWs).reverse, isPyWs c = true := by
    intro c hc
    rw [List.mem_reverse] at hc
    have := List.all_takeWhile (p := isPyWs) (l := m.reverse)
    exact List.all_eq_true.mp this c hc
  conv_rhs => rw [hdecomp]
  exact (pySplitGo_append_ws hws _ none).symm

theorem pySplit_pyStrip (s : String) : pySplit (pyStrip s) = pySplit s := by
  unfold pySplit pyStrip
  show ((pySplitL (pyStripL s.toList)).map fun l => (⟨l⟩ : String)) = _
  rw [pySplitL_pyStripL]

/-- Characters accumulated in the worker's current token are never
whitespace. -/
def curOK : Option (List Char) → Prop
  | none => True
  | some t => ∀ c ∈ t, isPyWs c = false

theorem pySplitGo_mem_no_ws :
    ∀ (l : List Char) (cur : Option (List Char)), curOK cur →
      ∀ tok ∈ pySplitGo cur l, ∀ c ∈ tok, isPyWs c = false := by
  intro l
  induction l with
  | nil =>
    intro cur hcur tok htok
    cases cur with
    | none => exact absurd htok (by simp [pySplitGo])
    | some t =>
      simp only [pySplitGo, List.mem_singleton] at htok
      subst htok
      intro c hc
      exact hcur c (List.mem_reverse.mp hc)
  | cons c cs ih =>
    intro cur hcur tok htok
    cases cur with
    | none =>
      by_cases h : isPyWs c = true
      · simp only [pySplitGo, h, if_true] at htok
        exact ih none trivial tok htok
      · simp only [pySplitGo, h, if_false] at htok
        refine ih (some [c]) ?_ tok htok
        intro d hd
        rw [List.mem_singleton] at hd
        subst hd
        exact eq_false_of_ne_true h
    | some t =>
      by_cases h : isPyWs c = true
      · simp only [pySplitGo, h, if_true, List.mem_cons] at htok
        rcases htok with htok | htok
        · subst htok
          intro d hd
          exact hcur d (List.mem_reverse.mp hd)
        · exact ih none trivial tok htok
      · simp only [pySplitGo, h, if_false] at htok
        refine ih (some (c :: t)) ?_ tok htok
        intro d hd
        rcases List.mem_cons.mp hd with hd | hd
        · subst hd; exact eq_false_of_ne_true h
        · exact hcur d hd

theorem pySplitL_mem_no_ws {l tok : List Char} (h : tok ∈ pySplitL l) :
    ∀ c ∈ tok, isPyWs c = false :=
  pySplitGo_mem_no_ws l none trivial tok h

theorem pyStripL_no_ws {tok : List Char} (h : ∀ c ∈ tok, isPyWs c = false) :
    pyStripL tok = tok := by
  have h1 : tok.dropWhile isPyWs = tok := by
    cases tok with
    | nil => rfl
    | cons c cs => exact List.dropWhile_cons_of_neg (by simp [h c (by simp)])
  have h2 : tok.reverse.dropWhile isPyWs = tok.reverse := by
    cases hr : tok.reverse with
    | nil => rfl
    | cons c cs =>
      have hc : c ∈ tok := by
        rw [← List.mem_reverse, hr]; simp
      exact List.dropWhile_cons_of_neg (by simp [h c hc])
  unfold pyStripL
  rw [h1, h2, List.reverse_reverse]

/-! ### Claim theorem for the classifier adapter -/

/-- The claim's normalisation of the classifier's output: the first
whitespace-delimited token, uppercased, trailing `.,!?:;` punctuation
stripped (`none` when the output has no token). -/
def firstTokenNorm (out : String) : Option String :=
  (pySplit out).head?.map fun w => pyRstripPunct (pyUpper w)

theorem parse_strip_true_iff (out : String) :
    (parse_llm_response (pyStrip out)).1 = true ↔ firstTokenNorm out = some "YES" := by
  unfold parse_llm_response firstTokenNorm
  have hsplit : pySplit (pyStrip (pyStrip out)) = pySplit out :=
    (pySplit_pyStrip (pyStrip out)).trans (pySplit_pyStrip out)
  by_cases hempty : pyStrip out = ""
  · rw [hempty]
    have : pySplit out = [] := by
      rw [← pySplit_pyStrip out, hempty]; rfl
    simp [this]
  · rw [if_neg hempty, hsplit]
    cases hps : pySplit out with
    | nil => simp
    | cons w ws =>
      have hw : ∃ tok toks, pySplitL out.toList = tok :: toks ∧ w = (⟨tok⟩ : String) := by
        unfold pySplit at hps
        cases hl : pySplitL out.toList with
        | nil => rw [hl] at hps; exact absurd hps (by simp)
        | cons tok toks =>
          rw [hl] at hps
          simp only [List.map_cons, List.cons.injEq] at hps
          exact ⟨tok, toks, rfl, hps.1.symm⟩
      obtain ⟨tok, toks, htok, hwtok⟩ := hw
      have hnows : ∀ c ∈ tok, isPyWs c = false :=
        pySplitL_mem_no_ws (by rw [htok]; simp)
      have hstripw : pyStrip w = w := by
        rw [hwtok]
        unfold pyStrip
        show (⟨pyStripL tok⟩ : String) = _
        rw [pyStripL_no_ws hnows]
      simp only [List.head?_cons, Option.map_some', Option.some.injEq, hstripw]
      by_cases hyes : pyRstripPunct (pyUpper w) = "YES"
      · simp [hyes]
      · simp [hyes]

/-- C3: `llm_filter` returns relevant exactly when the external invocation
succeeds and the first whitespace-delimited token of its output, uppercased
with trailing punctuation stripped, equals `"YES"`; any other token, empty
output, or invocation failure yields not-relevant, and the function is total
(the pipeline never aborts). In particular `"YES"`, `"yes."`, `"Yes!"` map
to relevant and `"NO"`, `""`, `"MAYBE"`, exit failure map to not-relevant. -/
theorem llm_filter_yes_iff :
    (∀ runner title abstract, llm_filter runner title abstract = true ↔
      ∃ out, runner (llm_prompt title abstract) = SubprocessResult.ok out ∧
        firstTokenNorm out = some "YES") ∧
    (∀ t a, llm_filter (fun _ => SubprocessResult.ok "YES") t a = true) ∧
    (∀ t a, llm_filter (fun _ => SubprocessResult.ok "yes.") t a = true) ∧
    (∀ t a, llm_filter (fun _ => SubprocessResult.ok "Yes!") t a = true) ∧
    (∀ t a, llm_filter (fun _ => SubprocessResult.ok "NO") t a = false) ∧
    (∀ t a, llm_filter (fun _ => SubprocessResult.ok "") t a = false) ∧
    (∀ t a, llm_filter (fun _ => SubprocessResult.ok "MAYBE") t a = false) ∧
    (∀ t a, llm_filter (fun _ => SubprocessResult.failure) t a = false) := by
  refine ⟨?_, fun t a => rfl, fun t a => rfl, fun t a => rfl, fun t a => rfl,
    fun t a => rfl, fun t a => rfl, fun t a => rfl⟩
  intro runner title abstract
  unfold llm_filter
  cases h : runner (llm_prompt title abstract) with
  | ok out =>
    rw [parse_strip_true_iff out]
    constructor
    · intro hy; exact ⟨out, rfl, hy⟩
    · rintro ⟨out', heq, hy⟩
      injection heq with heq
      rw [heq]; exact hy
  | failure =>
    simp

/-! ### Lemmas about the per-item loop -/

theorem classifyBranch_counters (runner : String → SubprocessResult)
    (st : RunState) (e : Entry) (pid? : Option String) :
    (classifyBranch runner st e pid?).total_llm_calls = st.total_llm_calls + 1 ∧
    (classifyBranch runner st e pid?).total_cached_hits = st.total_cached_hits ∧
    (classifyBranch runner st e pid?).total_entries_in_range = st.total_entries_in_range ∧
    (classifyBranch runner st e pid?).total_entries_processed = st.total_entries_processed := by
  unfold classifyBranch markRelevant
  cases hrel : llm_filter runner e.title e.summary <;> cases pid? <;>
    simp only [hrel, Bool.false_eq_true, if_false, if_true] <;>
    (iterate 3 (all_goals try split)) <;> simp

theorem processEntry_out_of_window (runner : String → SubprocessResult)
    (now : Int) (st : RunState) (e : Entry)
    (h : inWindow now e.published = false) :
    processEntry runner now st e = st := by
  unfold processEntry
  rw [if_neg (by simp [h])]

theorem processEntry_counters (runner : String → SubprocessResult)
    (now : Int) (st : RunState) (e : Entry)
    (h : inWindow now e.published = true) :
    (processEntry runner now st e).total_entries_in_range =
      st.total_entries_in_range + 1 ∧
    (((processEntry runner now st e).total_cached_hits = st.total_cached_hits + 1 ∧
      (processEntry runner now st e).total_llm_calls = st.total_llm_calls) ∨
     ((processEntry runner now st e).total_cached_hits = st.total_cached_hits ∧
      (processEntry runner now st e).total_llm_calls = st.total_llm_calls + 1)) ∧
    (processEntry runner now st e).total_entries_processed =
      st.total_entries_processed := by
  unfold processEntry
  rw [if_pos h]
  by_cases h2 : cacheHitB
      { st with total_entries_in_range := st.total_entries_in_range + 1 }
      (extractedId e) = true
  · rw [if_pos h2]
    exact ⟨rfl, Or.inl ⟨rfl, rfl⟩, rfl⟩
  · rw [if_neg h2]
    obtain ⟨hl, hc, hr, hp⟩ := classifyBranch_counters runner
      { st with total_entries_in_range := st.total_entries_in_range + 1 } e (extractedId e)
    exact ⟨hr, Or.inr ⟨hc, hl⟩, hp⟩

theorem foldl_processEntry_in_range (runner : String → SubprocessResult)
    (now : Int) :
    ∀ (entries : List Entry) (st : RunState),
      (entries.foldl (processEntry runner now) st).total_entries_in_range =
        st.total_entries_in_range +
          (entries.filter fun e => inWindow now e.published).length := by
  intro entries
  induction entries with
  | nil => intro st; simp
  | cons e es ih =>
    intro st
    rw [List.foldl_cons, ih]
    cases h : inWindow now e.published with
    | true =>
      rw [List.filter_cons, if_pos h, List.length_cons]
      have := (processEntry_counters runner now st e h).1
      omega
    | false =>
      rw [List.filter_cons, if_neg (by simp [h]),
        processEntry_out_of_window runner now st e h]

/-- C6: the time-window filter admits an item exactly when its publication
timestamp lies in the closed interval `[now - DAYS_BACK days, now]` — both
endpoints included, any amount outside either bound excluded — and the whole
run counts an entry as in range precisely when this predicate holds for the
single `now` captured at run start (the fold threads one fixed `now` through
every item). -/
theorem window_filter_closed_interval :
    (∀ now pub, inWindow now pub = true ↔
      now - DAYS_BACK * microsPerDay ≤ pub ∧ pub ≤ now) ∧
    (∀ now, inWindow now now = true) ∧
    (∀ now, inWindow now (now - DAYS_BACK * microsPerDay) = true) ∧
    (∀ now d, 0 < d → inWindow now (now + d) = false) ∧
    (∀ now d, 0 < d → inWindow now (now - DAYS_BACK * microsPerDay - d) = false) ∧
    (∀ runner now st entries,
      (List.foldl (processEntry runner now) st entries).total_entries_in_range =
        st.total_entries_in_range +
          (entries.filter fun e => inWindow now e.published).length) := by
  have hiff : ∀ now pub : Int, inWindow now pub = true ↔
      now - DAYS_BACK * microsPerDay ≤ pub ∧ pub ≤ now := by
    intro now pub
    simp [inWindow]
  refine ⟨hiff, ?_, ?_, ?_, ?_, ?_⟩
  · intro now
    rw [hiff]
    constructor
    · simp [DAYS_BACK, microsPerDay]
    · exact le_refl now
  · intro now
    rw [hiff]
    constructor
    · exact le_refl _
    · simp [DAYS_BACK, microsPerDay]
  · intro now d hd
    rw [← Bool.not_eq_true, hiff]
    intro h
    omega
  · intro now d hd
    rw [← Bool.not_eq_true, hiff]
    intro h
    have : (0 : Int) < DAYS_BACK * microsPerDay := by
      simp [DAYS_BACK, microsPerDay]
    omega
  · intro runner now st entries
    exact foldl_processEntry_in_range runner now entries st

/-- Witness for `window_filter_closed_interval`: one microsecond past `now`
and one microsecond before `now - 7 days` are both excluded. -/
theorem window_filter_closed_interval_witness :
    inWindow 0 (0 + 1) = false ∧
    inWindow 0 (0 - DAYS_BACK * microsPerDay - 1) = false :=
  ⟨window_filter_closed_interval.2.2.2.1 0 1 (by decide),
   window_filter_closed_interval.2.2.2.2.1 0 1 (by decide)⟩

/-! ### Claim theorems for the orchestrator's per-item state machine -/

/-- C1: for an in-window item whose extracted id is in the dedup cache at the
time it is processed, the pipeline does not invoke the classifier (the call
counter is unchanged and the resulting state does not depend on the
classifier process at all), counts the item as relevant for reporting (it is
appended to the all-relevant accumulator), and excludes it from the
new-relevant notification list. -/
theorem cache_hit_short_circuit (runner runner2 : String → SubprocessResult)
    (now : Int) (st : RunState) (e : Entry) (pid : String)
    (hwin : inWindow now e.published = true)
    (hid : extractedId e = some pid)
    (hc : pid ∈ st.cached_paper_ids) :
    (processEntry runner now st e).total_llm_calls = st.total_llm_calls ∧
    processEntry runner now st e = processEntry runner2 now st e ∧
    (processEntry runner now st e).relevant_papers =
      st.relevant_papers ++ [(dateOf e.published, format_entry e)] ∧
    (processEntry runner now st e).new_relevant_papers = st.new_relevant_papers ∧
    (processEntry runner now st e).total_cached_hits = st.total_cached_hits + 1 := by
  have hproc : ∀ runnerX : String → SubprocessResult,
      processEntry runnerX now st e =
        markRelevant
          { st with total_entries_in_range := st.total_entries_in_range + 1
                    total_cached_hits := st.total_cached_hits + 1 } e := by
    intro runnerX
    unfold processEntry
    simp [hwin, hid, cacheHitB, hc]
  rw [hproc runner, hproc runner2]
  refine ⟨rfl, rfl, ?_, rfl, rfl⟩
  simp [markRelevant]

/-- Witness data: an entry whose link text contains the arXiv id
`1234.5678`. -/
def entryCached : Entry :=
  { published := 0, title := "T", summary := "A", authors := [], link := "L"
    id_str := "http://arxiv.org/abs/1234.5678v1" }

/-- Witness data: an entry with no recognizable identifier. -/
def entryNoId : Entry :=
  { published := 0, title := "T", summary := "A", authors := [], link := "L"
    id_str := "no identifier here" }

/-- Witness data: a run state whose cache already holds `1234.5678`. -/
def stateCached : RunState :=
  { cached_paper_ids := {"1234.5678"}, cache_file_appends := []
    relevant_papers := [], new_relevant_papers := []
    total_entries_processed := 0, total_entries_in_range := 0
    total_llm_calls := 0, total_cached_hits := 0 }

/-- Witness data: the empty run state (cold cache). -/
def stateEmpty : RunState := initState ⟨false, [], none⟩

/-- Witness data: a classifier process that always fails. -/
def runnerFail : String → SubprocessResult := fun _ => SubprocessResult.failure

/-- Witness data: a classifier process that always answers `YES`. -/
def runnerYes : String → SubprocessResult := fun _ => SubprocessResult.ok "YES"

/-- Witness for `cache_hit_short_circuit`: concrete cached entry, with the
two runners disagreeing everywhere. -/
theorem cache_hit_short_circuit_witness :
    (processEntry runnerFail 0 stateCached entryCached).total_llm_calls =
      stateCached.total_llm_calls ∧
    processEntry runnerFail 0 stateCached entryCached =
      processEntry runnerYes 0 stateCached entryCached ∧
    (processEntry runnerFail 0 stateCached entryCached).relevant_papers =
      stateCached.relevant_papers ++
        [(dateOf entryCached.published, format_entry entryCached)] ∧
    (processEntry runnerFail 0 stateCached entryCached).new_relevant_papers =
      stateCached.new_relevant_papers ∧
    (processEntry runnerFail 0 stateCached entryCached).total_cached_hits =
      stateCached.total_cached_hits + 1 :=
  cache_hit_short_circuit runnerFail runnerYes 0 stateCached entryCached
    "1234.5678" (by decide) (by decide) (by decide)

/-- C2: for an in-window item whose identifier extraction yields the absence
value, a relevant classifier verdict appends the item both to the
all-relevant accumulator and to the new-relevant notification list, writes
nothing to the dedup cache (neither the in-memory set nor the backing file),
and the item is reclassified whenever it is processed again — any later
processing of it, in any window and against any cache state, invokes the
classifier once more. -/
theorem absent_id_new_and_uncached (runner : String → SubprocessResult)
    (now : Int) (st : RunState) (e : Entry)
    (hwin : inWindow now e.published = true)
    (hid : extract_id_str e.id_str = none)
    (hrel : llm_filter runner e.title e.summary = true) :
    (processEntry runner now st e).relevant_papers =
      st.relevant_papers ++ [(dateOf e.published, format_entry e)] ∧
    (processEntry runner now st e).new_relevant_papers =
      st.new_relevant_papers ++ [(e, none)] ∧
    (processEntry runner now st e).cached_paper_ids = st.cached_paper_ids ∧
    (processEntry runner now st e).cache_file_appends = st.cache_file_appends ∧
    (∀ (runner2 : String → SubprocessResult) (now2 : Int) (st2 : RunState),
      inWindow now2 e.published = true →
      (processEntry runner2 now2 st2 e).total_llm_calls = st2.total_llm_calls + 1) := by
  have hide : extractedId e = none := by
    unfold extractedId
    rw [hid]
  have hproc : ∀ (runnerX : String → SubprocessResult) (nowX : Int) (stX : RunState),
      inWindow nowX e.published = true →
      processEntry runnerX nowX stX e =
        classifyBranch runnerX
          { stX with total_entries_in_range := stX.total_entries_in_range + 1 }
          e none := by
    intro runnerX nowX stX hwinX
    unfold processEntry
    simp [hwinX, hide, cacheHitB]
  have hclass : classifyBranch runner
      { st with total_entries_in_range := st.total_entries_in_range + 1 } e none =
      markRelevant
        { st with total_entries_in_range := st.total_entries_in_range + 1
                  total_llm_calls := st.total_llm_calls + 1
                  new_relevant_papers := st.new_relevant_papers ++ [(e, none)] } e := by
    unfold classifyBranch
    simp [hrel]
  rw [hproc runner now st hwin, hclass]
  refine ⟨by simp [markRelevant], by simp [markRelevant], by simp [markRelevant],
    by simp [markRelevant], ?_⟩
  intro runner2 now2 st2 hwin2
  rw [hproc runner2 now2 st2 hwin2]
  exact (classifyBranch_counters runner2 _ e none).1

/-- Witness for `absent_id_new_and_uncached`: an entry with an unparseable
identifier, classified relevant by a constant-`YES` classifier, starting
from the cold-cache state. -/
theorem absent_id_new_and_uncached_witness :
    (processEntry runnerYes 0 stateEmpty entryNoId).relevant_papers =
      stateEmpty.relevant_papers ++
        [(dateOf entryNoId.published, format_entry entryNoId)] ∧
    (processEntry runnerYes 0 stateEmpty entryNoId).new_relevant_papers =
      stateEmpty.new_relevant_papers ++ [(entryNoId, none)] ∧
    (processEntry runnerYes 0 stateEmpty entryNoId).cached_paper_ids =
      stateEmpty.cached_paper_ids ∧
    (processEntry runnerYes 0 stateEmpty entryNoId).cache_file_appends =
      stateEmpty.cache_file_appends ∧
    (∀ (runner2 : String → SubprocessResult) (now2 : Int) (st2 : RunState),
      inWindow now2 entryNoId.published = true →
      (processEntry runner2 now2 st2 entryNoId).total_llm_calls =
        st2.total_llm_calls + 1) :=
  absent_id_new_and_uncached runnerYes 0 stateEmpty entryNoId
    (by decide) (by decide) (by rfl)

/-- C10: every item that passes the time-window filter increments exactly one
of the cache-hit counter and the classifier-call counter (an out-of-window
item changes nothing), so at the end of every run
`total_cached_hits + total_llm_calls = total_entries_in_range`. -/
theorem counter_invariant :
    (∀ runner now st e, inWindow now e.published = true →
      (processEntry runner now st e).total_entries_in_range =
        st.total_entries_in_range + 1 ∧
      (((processEntry runner now st e).total_cached_hits = st.total_cached_hits + 1 ∧
        (processEntry runner now st e).total_llm_calls = st.total_llm_calls) ∨
       ((processEntry runner now st e).total_cached_hits = st.total_cached_hits ∧
        (processEntry runner now st e).total_llm_calls = st.total_llm_calls + 1))) ∧
    (∀ runner now st e, inWindow now e.published = false →
      processEntry runner now st e = st) ∧
    (∀ runner now cacheFile topics cfg,
      ((mainRun runner now cacheFile topics cfg).1).total_cached_hits +
        ((mainRun runner now cacheFile topics cfg).1).total_llm_calls =
        ((mainRun runner now cacheFile topics cfg).1).total_entries_in_range) := by
  refine ⟨?_, processEntry_out_of_window, ?_⟩
  · intro runner now st e h
    obtain ⟨h1, h2, _⟩ := processEntry_counters runner now st e h
    exact ⟨h1, h2⟩
  · intro runner now cacheFile topics cfg
    have hstep : ∀ (st : RunState) (e : Entry),
        st.total_cached_hits + st.total_llm_calls = st.total_entries_in_range →
        (processEntry runner now st e).total_cached_hits +
          (processEntry runner now st e).total_llm_calls =
          (processEntry runner now st e).total_entries_in_range := by
      intro st e h
      cases hw : inWindow now e.published with
      | true =>
        obtain ⟨h1, h2, _⟩ := processEntry_counters runner now st e hw
        rcases h2 with ⟨hc, hl⟩ | ⟨hc, hl⟩ <;> omega
      | false => rw [processEntry_out_of_window runner now st e hw]; exact h
    have hfold : ∀ (entries : List Entry) (st : RunState),
        st.total_cached_hits + st.total_llm_calls = st.total_entries_in_range →
        (entries.foldl (processEntry runner now) st).total_cached_hits +
          (entries.foldl (processEntry runner now) st).total_llm_calls =
          (entries.foldl (processEntry runner now) st).total_entries_in_range := by
      intro entries
      induction entries with
      | nil => intro st h; exact h
      | cons e es ih => intro st h; exact ih _ (hstep st e h)
    have htopic : ∀ (topics' : List (List Entry)) (st : RunState),
        st.total_cached_hits + st.total_llm_calls = st.total_entries_in_range →
        (topics'.foldl (process_topic runner now) st).total_cached_hits +
          (topics'.foldl (process_topic runner now) st).total_llm_calls =
          (topics'.foldl (process_topic runner now) st).total_entries_in_range := by
      intro topics'
      induction topics' with
      | nil => intro st h; exact h
      | cons entries rest ih =>
        intro st h
        refine ih _ ?_
        unfold process_topic
        exact hfold entries _ h
    exact htopic topics (initState cacheFile) rfl

/-- Witness for `counter_invariant`: a concrete in-window step from the
cold-cache state increments the entry counter and exactly one of the two
other counters. -/
theorem counter_invariant_witness :
    (processEntry runnerFail 0 stateEmpty entryNoId).total_entries_in_range =
      stateEmpty.total_entries_in_range + 1 ∧
    (((processEntry runnerFail 0 stateEmpty entryNoId).total_cached_hits =
        stateEmpty.total_cached_hits + 1 ∧
      (processEntry runnerFail 0 stateEmpty entryNoId).total_llm_calls =
        stateEmpty.total_llm_calls) ∨
     ((processEntry runnerFail 0 stateEmpty entryNoId).total_cached_hits =
        stateEmpty.total_cached_hits ∧
      (processEntry runnerFail 0 stateEmpty entryNoId).total_llm_calls =
        stateEmpty.total_llm_calls + 1)) :=
  counter_invariant.1 runnerFail 0 stateEmpty entryNoId (by decide)

/-! ### Claim theorem for the notifier -/

/-- C8: the notification is sent at most once per run and only when the
new-relevant list is non-empty — the run's outcome carries a single optional
message, which is `none` when the final new-relevant list is empty and is
otherwise exactly the one batch message built from that whole list (never
per item); the subject states the paper count, or the single title when
exactly one; and with an incomplete recipient/credentials configuration the
notifier no-ops (returns `none` without failing). -/
theorem email_batch_once :
    (∀ cfg papers, email_config_incomplete cfg = true →
      send_batch_email_notification cfg papers = none) ∧
    (∀ cfg, send_batch_email_notification cfg [] = none) ∧
    (∀ cfg e pid?, email_config_incomplete cfg = false →
      (send_batch_email_notification cfg [(e, pid?)]).map Email.subject =
        some ("New Relevant arXiv Paper Found: " ++ (pyStrip e.title).take 60)) ∧
    (∀ cfg papers, email_config_incomplete cfg = false → 2 ≤ papers.length →
      (send_batch_email_notification cfg papers).map Email.subject =
        some ("New Relevant arXiv Papers Found: " ++ toString papers.length ++ " papers")) ∧
    (∀ runner now cacheFile topics cfg,
      (mainRun runner now cacheFile topics cfg).2 =
        if ((mainRun runner now cacheFile topics cfg).1).new_relevant_papers.isEmpty
        then none
        else send_batch_email_notification cfg
          ((mainRun runner now cacheFile topics cfg).1).new_relevant_papers) ∧
    (∀ runner now cacheFile topics cfg,
      ((mainRun runner now cacheFile topics cfg).1).new_relevant_papers = [] →
      (mainRun runner now cacheFile topics cfg).2 = none) ∧
    (∀ runner now cacheFile topics cfg msg,
      (mainRun runner now cacheFile topics cfg).2 = some msg →
      ((mainRun runner now cacheFile topics cfg).1).new_relevant_papers ≠ [] ∧
      email_config_incomplete cfg = false) := by
  have hincomplete : ∀ cfg papers, email_config_incomplete cfg = true →
      send_batch_email_notification cfg papers = none := by
    intro cfg papers h
    unfold send_batch_email_notification
    cases papers with
    | nil => rfl
    | cons p rest => simp [h]
  refine ⟨hincomplete, fun cfg => rfl, ?_, ?_, ?_, ?_, ?_⟩
  · intro cfg e pid? h
    unfold send_batch_email_notification
    simp [h]
  · intro cfg papers h hlen
    cases papers with
    | nil => simp at hlen
    | cons p rest =>
      cases rest with
      | nil => simp at hlen
      | cons q rest2 =>
        unfold send_batch_email_notification
        simp [h]
  · intro runner now cacheFile topics cfg
    rfl
  · intro runner now cacheFile topics cfg h
    simp only [mainRun] at h ⊢
    simp [h]
  · intro runner now cacheFile topics cfg msg h
    simp only [mainRun] at h
    by_cases hemp : (List.foldl (process_topic runner now) (initState cacheFile)
        topics).new_relevant_papers.isEmpty = true
    · rw [if_pos hemp] at h
      exact absurd h (by simp)
    · rw [if_neg hemp] at h
      refine ⟨?_, ?_⟩
      · show (mainRun runner now cacheFile topics cfg).1.new_relevant_papers ≠ []
        simp only [mainRun]
        intro hnil
        exact hemp (by simp [hnil])
      · by_cases hcfg : email_config_incomplete cfg = true
        · rw [hincomplete cfg _ hcfg] at h
          exact absurd h (by simp)
        · exact eq_false_of_ne_true hcfg

/-- Witness for `email_batch_once`: a complete configuration and a single
paper produce the single-title subject; an incomplete configuration no-ops. -/
theorem email_batch_once_witness :
    (send_batch_email_notification ⟨"user", "smtpuser", "secret"⟩
        [(entryNoId, none)]).map Email.subject =
      some ("New Relevant arXiv Paper Found: " ++ (pyStrip entryNoId.title).take 60) ∧
    send_batch_email_notification ⟨"", "smtpuser", "secret"⟩ [(entryNoId, none)] = none :=
  ⟨email_batch_once.2.2.1 ⟨"user", "smtpuser", "secret"⟩ entryNoId none (by decide),
   email_batch_once.1 ⟨"", "smtpuser", "secret"⟩ [(entryNoId, none)] (by decide)⟩

/-! ### Lemmas for the grouped report: stability of the sort, the grouping
emitter, and first-occurrence deduplication of the date column -/

theorem filter_orderedInsert (d : Int) (a : Int × String) (l : List (Int × String)) :
    (List.orderedInsert dateGE a l).filter (fun p => decide (p.1 = d)) =
      if a.1 = d then a :: l.filter (fun p => decide (p.1 = d))
      else l.filter (fun p => decide (p.1 = d)) := by
  induction l with
  | nil =>
    by_cases h : a.1 = d
    · rw [if_pos h]
      simp [List.orderedInsert, List.filter_cons, h]
    · rw [if_neg h]
      simp [List.orderedInsert, List.filter_cons, h]
  | cons b l ih =>
    by_cases hr : dateGE a b
    · rw [List.orderedInsert_of_le _ _ hr]
      by_cases h : a.1 = d <;> simp [List.filter_cons, h]
    · have hstep : List.orderedInsert dateGE a (b :: l) =
          b :: List.orderedInsert dateGE a l := by
        simp only [List.orderedInsert]
        rw [if_neg hr]
      have hba : a.1 < b.1 := lt_of_not_le hr
      rw [hstep, List.filter_cons]
      by_cases h : a.1 = d
      · have hbd : ¬ b.1 = d := by omega
        rw [if_neg (by simp [hbd]), ih, if_pos h, if_pos h, List.filter_cons,
          if_neg (by simp [hbd])]
      · rw [ih, if_neg h, if_neg h, List.filter_cons]

theorem filter_insertionSort (d : Int) (l : List (Int × String)) :
    (sortByDateDesc l).filter (fun p => decide (p.1 = d)) =
      l.filter (fun p => decide (p.1 = d)) := by
  unfold sortByDateDesc
  induction l with
  | nil => rfl
  | cons a l ih =>
    show (List.orderedInsert dateGE a (List.insertionSort dateGE l)).filter _ = _
    rw [filter_orderedInsert, List.filter_cons]
    by_cases h : a.1 = d
    · rw [if_pos h, if_pos (by simp [h]), ih]
    · rw [if_neg h, if_neg (by simp [h]), ih]

theorem emitGrouped_some (c : Int) (l : List (Int × String)) :
    emitGrouped (some c) l =
      ((l.takeWhile fun p => decide (p.1 = c)).map fun p => ReportLine.item p.1 p.2) ++
        emitGrouped none (l.dropWhile fun p => decide (p.1 = c)) := by
  induction l with
  | nil => rfl
  | cons p l ih =>
    obtain ⟨d, s⟩ := p
    by_cases h : c = d
    · subst h
      rw [show emitGrouped (some c) ((c, s) :: l) =
          ReportLine.item c s :: emitGrouped (some c) l by
        simp [emitGrouped]]
      rw [List.takeWhile_cons_of_pos (by simp), List.dropWhile_cons_of_pos (by simp)]
      rw [ih]
      simp
    · rw [show emitGrouped (some c) ((d, s) :: l) =
          ReportLine.header d :: ReportLine.item d s :: emitGrouped (some d) l by
        simp [emitGrouped, h]]
      rw [List.takeWhile_cons_of_neg (by simp [Ne.symm h]),
        List.dropWhile_cons_of_neg (by simp [Ne.symm h])]
      rw [show emitGrouped none ((d, s) :: l) =
          ReportLine.header d :: ReportLine.item d s :: emitGrouped (some d) l by
        simp [emitGrouped]]
      simp

theorem filter_eq_takeWhile_sorted (d : Int) :
    ∀ l : List (Int × String), List.Pairwise dateGE l → (∀ p ∈ l, p.1 ≤ d) →
      l.filter (fun p => decide (p.1 = d)) = l.takeWhile (fun p => decide (p.1 = d)) := by
  intro l
  induction l with
  | nil => intro _ _; rfl
  | cons p l ih =>
    intro hs hle
    obtain ⟨hhead, htail⟩ := List.pairwise_cons.mp hs
    by_cases h : p.1 = d
    · rw [List.filter_cons, if_pos (by simp [h]),
        List.takeWhile_cons_of_pos (by simp [h]),
        ih htail fun q hq => hle q (by simp [hq])]
    · rw [List.filter_cons, if_neg (by simp [h]),
        List.takeWhile_cons_of_neg (by simp [h])]
      rw [List.filter_eq_nil_iff]
      intro q hq
      have h1 : q.1 ≤ p.1 := hhead q hq
      have h2 : p.1 < d := lt_of_le_of_ne (hle p (by simp)) h
      simp
      omega

theorem dropWhile_keys_lt (d : Int) :
    ∀ l : List (Int × String), List.Pairwise dateGE l → (∀ p ∈ l, p.1 ≤ d) →
      ∀ q ∈ l.dropWhile (fun p => decide (p.1 = d)), q.1 < d := by
  intro l
  induction l with
  | nil => intro _ _ q hq; exact absurd hq (by simp)
  | cons p l ih =>
    intro hs hle q hq
    obtain ⟨hhead, htail⟩ := List.pairwise_cons.mp hs
    by_cases h : p.1 = d
    · rw [List.dropWhile_cons_of_pos (by simp [h])] at hq
      exact ih htail (fun r hr => hle r (by simp [hr])) q hq
    · rw [List.dropWhile_cons_of_neg (by simp [h])] at hq
      have h2 : p.1 < d := lt_of_le_of_ne (hle p (by simp)) h
      rcases List.mem_cons.mp hq with hq | hq
      · rw [hq]; exact h2
      · have h3 : q.1 ≤ p.1 := hhead q hq
        omega

theorem mem_distinctDates :
    ∀ (n : Nat) (ds : List Int), ds.length ≤ n →
      ∀ x, x ∈ distinctDates ds ↔ x ∈ ds := by
  intro n
  induction n with
  | zero =>
    intro ds h x
    have : ds = [] := List.eq_nil_of_length_eq_zero (Nat.le_zero.mp h)
    subst this
    simp [distinctDates]
  | succ n ih =>
    intro ds h x
    cases ds with
    | nil => simp [distinctDates]
    | cons d rest =>
      simp only [distinctDates]
      have hlen : (rest.filter fun y => decide (y ≠ d)).length ≤ n :=
        le_trans (List.length_filter_le _ _)
          (Nat.lt_succ_iff.mp (lt_of_lt_of_le (by simp) h))
      rw [List.mem_cons, List.mem_cons, ih _ hlen x, List.mem_filter]
      by_cases hx : x = d <;> simp [hx]

theorem nodup_distinctDates :
    ∀ (n : Nat) (ds : List Int), ds.length ≤ n → (distinctDates ds).Nodup := by
  intro n
  induction n with
  | zero =>
    intro ds h
    have : ds = [] := List.eq_nil_of_length_eq_zero (Nat.le_zero.mp h)
    subst this
    simp [distinctDates]
  | succ n ih =>
    intro ds h
    cases ds with
    | nil => simp [distinctDates]
    | cons d rest =>
      simp only [distinctDates]
      have hlen : (rest.filter fun y => decide (y ≠ d)).length ≤ n :=
        le_trans (List.length_filter_le _ _)
          (Nat.lt_succ_iff.mp (lt_of_lt_of_le (by simp) h))
      rw [List.nodup_cons]
      refine ⟨?_, ih _ hlen⟩
      intro hmem
      rw [mem_distinctDates n _ hlen d, List.mem_filter] at hmem
      simp at hmem

theorem pairwise_gt_distinctDates :
    ∀ (n : Nat) (ds : List Int), ds.length ≤ n →
      List.Pairwise (fun a b : Int => b ≤ a) ds →
      List.Pairwise (fun a b : Int => b < a) (distinctDates ds) := by
  intro n
  induction n with
  | zero =>
    intro ds h _
    have : ds = [] := List.eq_nil_of_length_eq_zero (Nat.le_zero.mp h)
    subst this
    simp [distinctDates]
  | succ n ih =>
    intro ds h hp
    cases ds with
    | nil => simp [distinctDates]
    | cons d rest =>
      simp only [distinctDates]
      obtain ⟨hhead, htail⟩ := List.pairwise_cons.mp hp
      have hlen : (rest.filter fun y => decide (y ≠ d)).length ≤ n :=
        le_trans (List.length_filter_le _ _)
          (Nat.lt_succ_iff.mp (lt_of_lt_of_le (by simp) h))
      rw [List.pairwise_cons]
      refine ⟨?_, ih _ hlen (htail.filter _)⟩
      intro y hy
      rw [mem_distinctDates n _ hlen y, List.mem_filter] at hy
      have h1 : y ≤ d := hhead y hy.1
      have h2 : ¬ y = d := by simpa using hy.2
      omega

/-- One date group of the report: the header followed by the items of that
date, in the order they occur in `l`. -/
def groupBlock (l : List (Int × String)) (d : Int) : List ReportLine :=
  ReportLine.header d ::
    ((l.filter fun p => decide (p.1 = d)).map fun p => ReportLine.item p.1 p.2)

theorem emit_canonical :
    ∀ (n : Nat) (m : List (Int × String)), m.length ≤ n →
      List.Pairwise dateGE m →
      emitGrouped none m = (distinctDates (m.map Prod.fst)).flatMap (groupBlock m) := by
  intro n
  induction n with
  | zero =>
    intro m h _
    have : m = [] := List.eq_nil_of_length_eq_zero (Nat.le_zero.mp h)
    subst this
    simp [distinctDates, emitGrouped]
  | succ n ih =>
    intro m hlen hs
    cases m with
    | nil => simp [distinctDates, emitGrouped]
    | cons p rest =>
      obtain ⟨d, s⟩ := p
      obtain ⟨hhead, htail⟩ := List.pairwise_cons.mp hs
      have hle : ∀ q ∈ rest, q.1 ≤ d := fun q hq => hhead q hq
      have hrestlen : rest.length ≤ n := by
        simp only [List.length_cons] at hlen
        omega
      -- the maximal same-date prefix and the strictly older remainder
      have f1 : (rest.takeWhile fun p => decide (p.1 = d)) ++
          (rest.dropWhile fun p => decide (p.1 = d)) = rest :=
        List.takeWhile_append_dropWhile ..
      have f2 : ∀ q ∈ (rest.takeWhile fun p => decide (p.1 = d)), q.1 = d := by
        intro q hq
        have := List.all_eq_true.mp
          (List.all_takeWhile (p := fun p => decide (p.1 = d)) (l := rest)) q hq
        simpa using this
      have f3 : ∀ q ∈ (rest.dropWhile fun p => decide (p.1 = d)), q.1 < d :=
        dropWhile_keys_lt d rest htail hle
      have f4 : rest.filter (fun p => decide (p.1 = d)) =
          rest.takeWhile (fun p => decide (p.1 = d)) :=
        filter_eq_takeWhile_sorted d rest htail hle
      have hs_rr : List.Pairwise dateGE (rest.dropWhile fun p => decide (p.1 = d)) :=
        htail.sublist (List.dropWhile_sublist _)
      have hlen_rr : (rest.dropWhile fun p => decide (p.1 = d)).length ≤ n :=
        le_trans (List.dropWhile_sublist _).length_le hrestlen
      have hIH := ih _ hlen_rr hs_rr
      -- the remaining distinct dates are exactly those of the remainder
      have hfilter_dates :
          ((rest.map Prod.fst).filter fun x => decide (x ≠ d)) =
            (rest.dropWhile fun p => decide (p.1 = d)).map Prod.fst := by
        conv_lhs => rw [← f1]
        rw [List.map_append, List.filter_append]
        have h1 : ((rest.takeWhile fun p => decide (p.1 = d)).map Prod.fst).filter
            (fun x => decide (x ≠ d)) = [] := by
          rw [List.filter_eq_nil_iff]
          intro x hx
          obtain ⟨q, hq, hqx⟩ := List.mem_map.mp hx
          simp [← hqx, f2 q hq]
        have h2 : ((rest.dropWhile fun p => decide (p.1 = d)).map Prod.fst).filter
            (fun x => decide (x ≠ d)) =
            (rest.dropWhile fun p => decide (p.1 = d)).map Prod.fst := by
          rw [List.filter_eq_self]
          intro x hx
          obtain ⟨q, hq, hqx⟩ := List.mem_map.mp hx
          have := f3 q hq
          simp [← hqx]
          omega
        rw [h1, h2, List.nil_append]
      have hblock_d : groupBlock ((d, s) :: rest) d =
          ReportLine.header d :: ReportLine.item d s ::
            ((rest.takeWhile fun p => decide (p.1 = d)).map
              fun p => ReportLine.item p.1 p.2) := by
        unfold groupBlock
        rw [List.filter_cons, if_pos (by simp), f4, List.map_cons]
      have hcongr : ∀ d' ∈ distinctDates
          ((rest.dropWhile fun p => decide (p.1 = d)).map Prod.fst),
          groupBlock ((d, s) :: rest) d' =
            groupBlock (rest.dropWhile fun p => decide (p.1 = d)) d' := by
        intro d' hd'
        have hd'mem : d' ∈ (rest.dropWhile fun p => decide (p.1 = d)).map Prod.fst :=
          (mem_distinctDates _ _ le_rfl d').mp hd'
        obtain ⟨q, hq, hqd⟩ := List.mem_map.mp hd'mem
        have hd'lt : d' < d := hqd ▸ f3 q hq
        unfold groupBlock
        congr 1
        rw [List.filter_cons, if_neg (by simp; omega)]
        conv_lhs => rw [← f1]
        rw [List.filter_append]
        have h1 : (rest.takeWhile fun p => decide (p.1 = d)).filter
            (fun p => decide (p.1 = d')) = [] := by
          rw [List.filter_eq_nil_iff]
          intro q' hq'
          have := f2 q' hq'
          simp
          omega
        rw [h1, List.nil_append]
      -- assemble
      have hstart : emitGrouped none ((d, s) :: rest) =
          ReportLine.header d :: ReportLine.item d s :: emitGrouped (some d) rest := by
        simp [emitGrouped]
      rw [hstart, emitGrouped_some d rest, List.map_cons]
      simp only [distinctDates, List.flatMap_cons]
      rw [hfilter_dates, List.flatMap_congr hcongr, ← hIH, hblock_d]
      simp

/-- C9 (spec-modelled Reporter): the console report is exactly one block per
distinct date — a header followed by that date's items — with the blocks in
strictly descending date order, each distinct date of the accumulator
producing exactly one header (the dates list is duplicate-free and covers
exactly the dates occurring in the accumulator), and the items under a date
being precisely the accumulator's entries of that date in their original
discovery order (topic order, then feed order), by stability of the
descending date-sort. -/
theorem report_grouping :
    (∀ l, report_lines l = (reportDates l).flatMap (groupBlock l)) ∧
    (∀ l, (reportDates l).Nodup) ∧
    (∀ l, List.Pairwise (fun a b : Int => b < a) (reportDates l)) ∧
    (∀ l d, d ∈ reportDates l ↔ d ∈ l.map Prod.fst) := by
  have hsorted : ∀ l, List.Pairwise dateGE (sortByDateDesc l) := fun l =>
    List.sorted_insertionSort dateGE l
  have hdates_ge : ∀ l, List.Pairwise (fun a b : Int => b ≤ a)
      ((sortByDateDesc l).map Prod.fst) := by
    intro l
    rw [List.pairwise_map]
    exact hsorted l
  refine ⟨?_, ?_, ?_, ?_⟩
  · intro l
    unfold report_lines reportDates
    rw [emit_canonical (sortByDateDesc l).length _ le_rfl (hsorted l)]
    apply List.flatMap_congr
    intro d _
    unfold groupBlock
    rw [filter_insertionSort]
  · intro l
    exact nodup_distinctDates _ _ le_rfl
  · intro l
    exact pairwise_gt_distinctDates _ _ le_rfl (hdates_ge l)
  · intro l d
    unfold reportDates
    rw [mem_distinctDates _ _ le_rfl]
    exact ((List.perm_insertionSort dateGE l).map Prod.fst).mem_iff

end PaperFlow
